import Mathlib

/-!
Verification of the arithmetic-expression evaluator and the diagram
block-graph evaluator of the ScholarHub repository
(src/calculator-with-ai/app.js).

The JavaScript code is shallowly embedded over two number models, with
strings as lists of characters throughout.  The primary model takes JS
numbers as exact rationals, faithful for every behavior strictly below
the double overflow bound.  A second, overflow-aware model extends the
rationals with NaN and the signed infinities, saturating parseFloat and
each arithmetic operation at the IEEE overflow bound, and carries the
final non-finite check of evaluate (source line 299) that the rational
model cannot express; the non-finite behavior of the evaluator is
settled against that model.  JS dynamically typed values reaching the
diagram evaluator become an explicit tagged union that includes NaN,
signed infinities and strings, since the source does let the string
value Error flow into arithmetic.
-/

namespace ScholarHub

/-! ## Characters, digit parsing, JS parseFloat -/

/-- Decimal value of a list of decimal digits, most significant first,
the same left fold as JS parseInt with radix 10 on an all-digit string. -/
def digitsToNat (ds : List Char) : ℕ :=
  ds.foldl (fun n c => n * 10 + (c.toNat - '0'.toNat)) 0

/-- Characters that the tokenizer accumulates into a numeral:
the JS test /\d|\./ . -/
def isNumChar (c : Char) : Bool :=
  c.isDigit || c = '.'

/-- JS parseFloat restricted to its unsigned core: parse the longest
prefix of the form digits [ . digits ] and fail (NaN) when that prefix
is empty or is a bare dot.  This covers every string the embedded code
passes to parseFloat after its sign, because those strings contain no
exponent letters. -/
def parseFloatCore (s : List Char) : Option ℚ :=
  let ip := s.takeWhile Char.isDigit
  let r := s.dropWhile Char.isDigit
  match r with
  | '.' :: r2 =>
    let fp := r2.takeWhile Char.isDigit
    if ip = [] ∧ fp = [] then none
    else some ((digitsToNat ip : ℚ) + (digitsToNat fp : ℚ) / (10 : ℚ) ^ fp.length)
  | _ => if ip = [] then none else some (digitsToNat ip : ℚ)

/-- JS parseFloat with an optional leading sign, as applied by
resolveDiagramValue after stripping. -/
def parseFloatJS (s : List Char) : Option ℚ :=
  match s with
  | '-' :: rest => (parseFloatCore rest).map Neg.neg
  | '+' :: rest => parseFloatCore rest
  | _ => parseFloatCore s

/-- Rounding used throughout the source:
Math.round(x * 1e10) / 1e10, where Math.round is floor(x + 1/2). -/
def round10 (q : ℚ) : ℚ :=
  (Int.floor (q * 10000000000 + 1 / 2) : ℚ) / 10000000000

/-! ## Tokenizer (app.js, function tokenize) -/

/-- Operator symbols of the evaluator. -/
inductive Op : Type
  | add
  | sub
  | mul
  | div
deriving DecidableEq

/-- Membership of a character in the operator set
new Set(plus, minus, times, slash) of tokenize. -/
def charOp? (c : Char) : Option Op :=
  if c = '+' then some Op.add
  else if c = '-' then some Op.sub
  else if c = '*' then some Op.mul
  else if c = '/' then some Op.div
  else none

/-- Tokens produced by tokenize. -/
inductive Tok : Type
  | num (value : ℚ) (isPercent : Bool)
  | op (o : Op)
deriving DecidableEq

/-- Embedding of the scan loop of tokenize from app.js, structurally
recursive on a fuel bound on the number of loop iterations.  Each
iteration consumes at least one character, so any fuel of at least the
length of the list is sufficient; with insufficient fuel (never the case
below) a nonempty list returns none.  Left-to-right scan: an operator
character becomes an operator token; a digit or dot starts a numeral run
of digits and dots which must parseFloat to a number (otherwise the whole
tokenization returns none, the embedding of the JS null); a percent sign
immediately after the run sets the isPercent flag and is consumed; every
other character is skipped. -/
def tokenizeF : ℕ → List Char → Option (List Tok)
  | _, [] => some []
  | 0, _ :: _ => none
  | fuel + 1, c :: cs =>
    match charOp? c with
    | some o => (tokenizeF fuel cs).map (fun ts => Tok.op o :: ts)
    | none =>
      if isNumChar c then
        match parseFloatCore ((c :: cs).takeWhile isNumChar) with
        | none => none
        | some n =>
          if ((c :: cs).dropWhile isNumChar).head? = some '%' then
            (tokenizeF fuel ((c :: cs).dropWhile isNumChar).tail).map
              (fun ts => Tok.num n true :: ts)
          else
            (tokenizeF fuel ((c :: cs).dropWhile isNumChar)).map
              (fun ts => Tok.num n false :: ts)
      else tokenizeF fuel cs

/-- tokenize from app.js: the scan loop with its (always sufficient)
fuel. -/
def tokenize (cs : List Char) : Option (List Tok) :=
  tokenizeF cs.length cs

/-! ## Expression evaluator (app.js, function evaluate) -/

/-- Result type of evaluate: a number, the string Error (the error
marker), or null (no result). -/
inductive EvalResult : Type
  | num (q : ℚ)
  | err
  | noRes
deriving DecidableEq

/-- A pending operand in the reduction loop:
the objects with value and isPercent fields built from the tokens. -/
structure Entry : Type where
  value : ℚ
  isPercent : Bool
deriving DecidableEq

/-- Default entry used for out-of-range list reads; the reduction never
actually reads out of range. -/
def defaultEntry : Entry := ⟨0, false⟩

/-- Percent-adjusted value of an operand: the aVal and bVal computation
a.isPercent ? a.value / 100 : a.value of the source. -/
def pv (e : Entry) : ℚ :=
  if e.isPercent then e.value / 100 else e.value

/-- One combination step of the reduction loop (source lines 280-293).
Returns the error marker exactly on division whose percent-adjusted
right operand is zero; for plus and minus a percent-flagged right operand
contributes aVal times b.value over 100. -/
def applyOp (a : Entry) (op : Op) (b : Entry) : Except Unit ℚ :=
  match op with
  | Op.mul => Except.ok (pv a * pv b)
  | Op.div =>
    if pv b = 0 then Except.error () else Except.ok (pv a / pv b)
  | Op.add =>
    Except.ok (pv a + (if b.isPercent then pv a * (b.value / 100) else pv b))
  | Op.sub =>
    Except.ok (pv a - (if b.isPercent then pv a * (b.value / 100) else pv b))

/-- Index of the leftmost operator belonging to the current pass:
ops.findIndex(o => priority.includes(o)). -/
def findPrio (prio : List Op) : List Op → Option ℕ
  | [] => none
  | o :: rest =>
    if o ∈ prio then some 0 else (findPrio prio rest).map (fun i => i + 1)

/-- One pass of the reduction loop of evaluate, structurally recursive on
a fuel bound on the number of loop iterations: while some operator of the
current priority class remains, combine the two operands around the
leftmost one and splice the non-percent intermediate result back in
(nums.splice(idx, 2, new) and ops.splice(idx, 1)).  A division by zero
aborts the whole evaluation (the early return of the string Error).  Each
iteration removes one operator, so any fuel of at least the length of the
operator list is sufficient; at fuel zero under that invariant the
operator list is empty and the zero case agrees with the loop. -/
def runPassF (prio : List Op) : ℕ → List Entry → List Op →
    Except Unit (List Entry × List Op)
  | 0, nums, ops => Except.ok (nums, ops)
  | fuel + 1, nums, ops =>
    match findPrio prio ops with
    | none => Except.ok (nums, ops)
    | some idx =>
      match applyOp (nums.getD idx defaultEntry) (ops.getD idx Op.add)
          (nums.getD (idx + 1) defaultEntry) with
      | Except.error e => Except.error e
      | Except.ok r =>
        runPassF prio fuel
          (nums.take idx ++ Entry.mk r false :: nums.drop (idx + 2))
          (ops.take idx ++ ops.drop (idx + 1))

/-- One pass of the reduction loop with its (always sufficient) fuel. -/
def runPass (prio : List Op) (nums : List Entry) (ops : List Op) :
    Except Unit (List Entry × List Op) :=
  runPassF prio ops.length nums ops

/-- The number-subsequence of a token list:
tokens.filter(t => t.type === num) mapped to value and isPercent. -/
def tokenNums (ts : List Tok) : List Entry :=
  ts.filterMap (fun t =>
    match t with
    | Tok.num v p => some (Entry.mk v p)
    | Tok.op _ => none)

/-- The operator-subsequence of a token list. -/
def tokenOps (ts : List Tok) : List Op :=
  ts.filterMap (fun t =>
    match t with
    | Tok.num _ _ => none
    | Tok.op o => some o)

/-- The priority class of pass 1. -/
def mulDivP : List Op := [Op.mul, Op.div]

/-- The priority class of pass 2. -/
def addSubP : List Op := [Op.add, Op.sub]

/-- Both reduction passes followed by the percent adjustment of the one
remaining operand (source line 298). -/
def reduceTokens (nums : List Entry) (ops : List Op) : Except Unit ℚ :=
  match runPass mulDivP nums ops with
  | Except.error e => Except.error e
  | Except.ok (nums1, ops1) =>
    match runPass addSubP nums1 ops1 with
    | Except.error e => Except.error e
    | Except.ok (nums2, _) => Except.ok (pv (nums2.headD defaultEntry))

/-- Embedding of evaluate from app.js over the rational number model,
which keeps only the finite regime: here the final check
result === Infinity, -Infinity or NaN (source line 299) can never fire
and has no rational counterpart, so it does not appear; the
overflow-aware evaluateJS below carries that check faithfully.  The
multi-token path rounds the final result to ten decimal places. -/
def evaluate (cs : List Char) : EvalResult :=
  match tokenize cs with
  | none => EvalResult.noRes
  | some tokens =>
    match tokens.head? with
    | none => EvalResult.noRes
    | some (Tok.op _) => EvalResult.noRes
    | some (Tok.num v p) =>
      if tokens.length = 1 then EvalResult.num (if p then v / 100 else v)
      else
        if (tokenOps tokens).length ≠ (tokenNums tokens).length - 1 then
          EvalResult.noRes
        else
          match reduceTokens (tokenNums tokens) (tokenOps tokens) with
          | Except.error _ => EvalResult.err
          | Except.ok r => EvalResult.num (round10 r)

/-! ## JS dynamically typed values reaching the diagram evaluator

The diagram code compares with === null and === the string Error, and
otherwise applies JS arithmetic to whatever value it holds, so the model
needs the JS value universe reachable there: numbers (including NaN and
the signed infinities) and strings, plus null. -/

/-- A JS value reachable in the diagram result lists. -/
inductive DVal : Type
  | num (q : ℚ)
  | nan
  | inf (pos : Bool)
  | str (s : String)
  | null
deriving DecidableEq

/-- A JS numeric value: finite, NaN, or a signed infinity. -/
inductive JNum : Type
  | fin (q : ℚ)
  | nan
  | inf (pos : Bool)
deriving DecidableEq

/-- Whitespace trimming of JS String.prototype.trim. -/
def jsTrim (s : List Char) : List Char :=
  ((s.dropWhile Char.isWhitespace).reverse.dropWhile Char.isWhitespace).reverse

/-- Fractional decimal digits of r / d (0 ≤ r < d), at most fuel many. -/
def fracDigits : ℕ → ℕ → ℕ → List Char
  | 0, _, _ => []
  | _ + 1, 0, _ => []
  | fuel + 1, r, d => Nat.digitChar (r * 10 / d) :: fracDigits fuel (r * 10 % d) d

/-- ECMAScript ToString on a (finite) number, modelled on the rational
idealization: exact for integers and for terminating decimal expansions
of up to seventeen places, which covers every numeric value whose string
image the embedded code observes. -/
def numToString (q : ℚ) : String :=
  (if q.num < 0 then "-" else "") ++
    (if q.den = 1 then Nat.repr q.num.natAbs
     else Nat.repr (q.num.natAbs / q.den) ++ "." ++
       String.mk (fracDigits 17 (q.num.natAbs % q.den) q.den))

/-- ECMAScript ToString of a diagram value. -/
def jsToString (v : DVal) : String :=
  match v with
  | DVal.num q => numToString q
  | DVal.nan => "NaN"
  | DVal.inf true => "Infinity"
  | DVal.inf false => "-Infinity"
  | DVal.str s => s
  | DVal.null => "null"

/-- Full-string decimal literal with optional fraction, for ECMAScript
ToNumber on a string; none models NaN.  Hex, exponent and Infinity forms
are omitted: no reachable string in the diagram evaluator has one, they
would simply be further none cases. -/
def parseDecUnsigned (t : List Char) : Option ℚ :=
  let ip := t.takeWhile Char.isDigit
  let r := t.dropWhile Char.isDigit
  match r with
  | [] => if ip = [] then none else some (digitsToNat ip : ℚ)
  | '.' :: r2 =>
    let fp := r2.takeWhile Char.isDigit
    if r2.dropWhile Char.isDigit ≠ [] then none
    else if ip = [] ∧ fp = [] then none
    else some ((digitsToNat ip : ℚ) + (digitsToNat fp : ℚ) / (10 : ℚ) ^ fp.length)
  | _ => none

/-- ECMAScript ToNumber on a string: trimmed empty is zero, otherwise the
whole string must be a signed decimal literal, else NaN. -/
def strToNumber (s : String) : JNum :=
  match jsTrim s.data with
  | [] => JNum.fin 0
  | '-' :: rest =>
    match parseDecUnsigned rest with
    | some q => JNum.fin (-q)
    | none => JNum.nan
  | '+' :: rest =>
    match parseDecUnsigned rest with
    | some q => JNum.fin q
    | none => JNum.nan
  | t =>
    match parseDecUnsigned t with
    | some q => JNum.fin q
    | none => JNum.nan

/-- ECMAScript ToNumber of a diagram value. -/
def toJNum (v : DVal) : JNum :=
  match v with
  | DVal.num q => JNum.fin q
  | DVal.nan => JNum.nan
  | DVal.inf b => JNum.inf b
  | DVal.str s => strToNumber s
  | DVal.null => JNum.fin 0

/-- IEEE addition on JS numeric values. -/
def jnAdd : JNum → JNum → JNum
  | JNum.nan, _ => JNum.nan
  | _, JNum.nan => JNum.nan
  | JNum.fin a, JNum.fin b => JNum.fin (a + b)
  | JNum.inf p, JNum.fin _ => JNum.inf p
  | JNum.fin _, JNum.inf p => JNum.inf p
  | JNum.inf p, JNum.inf q => if p = q then JNum.inf p else JNum.nan

/-- IEEE subtraction on JS numeric values. -/
def jnSub : JNum → JNum → JNum
  | JNum.nan, _ => JNum.nan
  | _, JNum.nan => JNum.nan
  | JNum.fin a, JNum.fin b => JNum.fin (a - b)
  | JNum.inf p, JNum.fin _ => JNum.inf p
  | JNum.fin _, JNum.inf p => JNum.inf (!p)
  | JNum.inf p, JNum.inf q => if p = q then JNum.nan else JNum.inf p

/-- IEEE multiplication on JS numeric values (zero times infinity is
NaN). -/
def jnMul : JNum → JNum → JNum
  | JNum.nan, _ => JNum.nan
  | _, JNum.nan => JNum.nan
  | JNum.fin a, JNum.fin b => JNum.fin (a * b)
  | JNum.inf p, JNum.fin b =>
    if b = 0 then JNum.nan else JNum.inf (p = decide (0 < b))
  | JNum.fin a, JNum.inf p =>
    if a = 0 then JNum.nan else JNum.inf (p = decide (0 < a))
  | JNum.inf p, JNum.inf q => JNum.inf (p = q)

/-- IEEE division on JS numeric values (x / 0 is a signed infinity for
nonzero x and NaN for x = 0; the rational model has no signed zero). -/
def jnDiv : JNum → JNum → JNum
  | JNum.nan, _ => JNum.nan
  | _, JNum.nan => JNum.nan
  | JNum.fin a, JNum.fin b =>
    if b = 0 then
      (if a = 0 then JNum.nan else JNum.inf (decide (0 < a)))
    else JNum.fin (a / b)
  | JNum.inf p, JNum.fin b => JNum.inf (p = decide (0 ≤ b))
  | JNum.fin _, JNum.inf _ => JNum.fin 0
  | JNum.inf _, JNum.inf _ => JNum.nan

/-- Back from a JS numeric value to a diagram value. -/
def ofJNum : JNum → DVal
  | JNum.fin q => DVal.num q
  | JNum.nan => DVal.nan
  | JNum.inf p => DVal.inf p

/-- JS binary plus: string concatenation as soon as either operand is a
string, numeric addition otherwise. -/
def jsAdd (a b : DVal) : DVal :=
  match a, b with
  | DVal.str _, _ => DVal.str (jsToString a ++ jsToString b)
  | _, DVal.str _ => DVal.str (jsToString a ++ jsToString b)
  | _, _ => ofJNum (jnAdd (toJNum a) (toJNum b))

/-- JS binary minus: always numeric. -/
def jsSub (a b : DVal) : DVal :=
  ofJNum (jnSub (toJNum a) (toJNum b))

/-- JS multiplication: always numeric. -/
def jsMul (a b : DVal) : DVal :=
  ofJNum (jnMul (toJNum a) (toJNum b))

/-- JS division: always numeric. -/
def jsDiv (a b : DVal) : DVal :=
  ofJNum (jnDiv (toJNum a) (toJNum b))

/-! ## Diagram block evaluator (app.js, functions resolveDiagramValue,
computeDiagramBlock, getDiagramResults) -/

/-- One diagram block: the two operand slots and the operator slot, raw
strings as typed by the user.  The id field of the source object is
omitted: it is used only for UI identity and never read by the three
computation functions embedded here. -/
structure DiagramBlock : Type where
  left : List Char
  op : List Char
  right : List Char

/-- The regex match t.match(hash digits, anchored both ends) of
resolveDiagramValue, returning the parseInt value of the digits. -/
def refMatch (t : List Char) : Option ℕ :=
  match t with
  | '#' :: ds =>
    if ds ≠ [] ∧ ds.all Char.isDigit then some (digitsToNat ds) else none
  | _ => none

/-- Characters kept by the strip t.replace of resolveDiagramValue:
digits, dot, minus, percent. -/
def isKeptChar (c : Char) : Bool :=
  c.isDigit || c = '.' || c = '-' || c = '%'

/-- Embedding of resolveDiagramValue from app.js.  An empty operand is
null.  A trimmed operand of the form hash digits is a positional
reference: slot k-1 of the prior results is returned whenever it exists
and is not null — including when it holds the string Error.  Any other
operand is stripped to its kept characters and parseFloated, divided by
100 when the trimmed operand ends in a percent sign. -/
def resolveDiagramValue (s : List Char) (results : List DVal) : DVal :=
  if s = [] then DVal.null
  else
    let t := jsTrim s
    match refMatch t with
    | some k =>
      if 1 ≤ k then
        match results.get? (k - 1) with
        | some v => if v = DVal.null then DVal.null else v
        | none => DVal.null
      else DVal.null
    | none =>
      match parseFloatJS (t.filter isKeptChar) with
      | none => DVal.null
      | some q =>
        if t.getLast? = some '%' then DVal.num (q / 100) else DVal.num q

/-- Embedding of computeDiagramBlock from app.js.  Unresolved operands
give null; an empty operator slot falls back to plus; a trimmed operator
that is none of the four symbols gives null; division whose right operand
is the number zero gives the string Error. -/
def computeDiagramBlock (block : DiagramBlock) (results : List DVal) : DVal :=
  let left := resolveDiagramValue block.left results
  let right := resolveDiagramValue block.right results
  if left = DVal.null ∨ right = DVal.null then DVal.null
  else
    let op := jsTrim (if block.op = [] then ['+'] else block.op)
    if op = ['*'] then jsMul left right
    else if op = ['/'] then
      (if right = DVal.num 0 then DVal.str "Error" else jsDiv left right)
    else if op = ['+'] then jsAdd left right
    else if op = ['-'] then jsSub left right
    else DVal.null

/-- The push step of getDiagramResults: a value that is neither null nor
the string Error is rounded to ten decimal places when it is a number
(typeof gives number for NaN and the infinities as well, and Math.round
fixes both) and stored otherwise unchanged. -/
def storeResult (value : DVal) : DVal :=
  if value ≠ DVal.null ∧ value ≠ DVal.str "Error" then
    match value with
    | DVal.num q => DVal.num (round10 q)
    | DVal.nan => DVal.nan
    | DVal.inf b => DVal.inf b
    | v => v
  else value

/-- The loop of getDiagramResults: fold over the blocks in list order,
each block computed against the already accumulated results. -/
def getDiagramResultsAux (blocks : List DiagramBlock) (acc : List DVal) :
    List DVal :=
  match blocks with
  | [] => acc
  | b :: rest =>
    getDiagramResultsAux rest (acc ++ [storeResult (computeDiagramBlock b acc)])

/-- Embedding of getDiagramResults from app.js, over an explicit block
list (the source reads the module-level diagramBlocks array). -/
def getDiagramResults (blocks : List DiagramBlock) : List DVal :=
  getDiagramResultsAux blocks []

/-! ## Variable substitution for the grapher (app.js, evaluateWithX) -/

/-- The variable letter, case-insensitively: the gi-flagged regexes of
evaluateWithX. -/
def isXChar (c : Char) : Bool :=
  c = 'x' || c = 'X'

/-- Global replace of the regex digit-then-x by digit star xStr.
Consumed characters are not rescanned; the replacement text never
contains the variable letter since it prints a number. -/
def replaceDigitX (xStr : List Char) : List Char → List Char
  | [] => []
  | [c] => [c]
  | c1 :: c2 :: rest2 =>
    if c1.isDigit ∧ isXChar c2 then
      c1 :: '*' :: (xStr ++ replaceDigitX xStr rest2)
    else c1 :: replaceDigitX xStr (c2 :: rest2)

/-- Global replace of the regex x-then-digit by xStr star digit. -/
def replaceXDigit (xStr : List Char) : List Char → List Char
  | [] => []
  | [c] => [c]
  | c1 :: c2 :: rest2 =>
    if isXChar c1 ∧ c2.isDigit then
      xStr ++ '*' :: c2 :: replaceXDigit xStr rest2
    else c1 :: replaceXDigit xStr (c2 :: rest2)

/-- Global replace of every remaining variable letter by xStr. -/
def replaceX (xStr : List Char) : List Char → List Char
  | [] => []
  | c :: rest =>
    (if isXChar c then xStr else [c]) ++ replaceX xStr rest

/-- The arithmetic alphabet kept by the final strip of evaluateWithX:
digits and + - * / . % . -/
def isArithChar (c : Char) : Bool :=
  c.isDigit || c = '+' || c = '-' || c = '*' || c = '/' || c = '.' || c = '%'

/-- The string-transformation pipeline of evaluateWithX: drop whitespace,
substitute the variable (inserting explicit multiplication where it
touches a digit), strip to the arithmetic alphabet. -/
def substituteX (expr : List Char) (xStr : List Char) : List Char :=
  let cleaned := (jsTrim expr).filter (fun c => !c.isWhitespace)
  let c1 := replaceDigitX xStr cleaned
  let c2 := replaceXDigit xStr c1
  let c3 := replaceX xStr c2
  c3.filter isArithChar

/-- Embedding of evaluateWithX from app.js.  The numeric argument is
stringified with the JS String conversion; the safe string must be
nonempty and contain a digit (otherwise null); the error marker outcome
of evaluate is returned as null. -/
def evaluateWithX (expr : List Char) (x : ℚ) : EvalResult :=
  if expr = [] then EvalResult.noRes
  else
    let safe := substituteX expr (numToString x).data
    if safe = [] ∨ ¬ safe.any Char.isDigit then EvalResult.noRes
    else
      match evaluate safe with
      | EvalResult.err => EvalResult.noRes
      | r => r

/-! ## Small-step view of one reduction pass, for stating when a
division by zero occurs during reduction -/

/-- One iteration of the reduction loop as a relation on states (the
operand list together with the operator list): the leftmost operator of
the priority class is combined successfully and spliced. -/
def PassStep (prio : List Op) (s s' : List Entry × List Op) : Prop :=
  ∃ idx r,
    findPrio prio s.2 = some idx ∧
    applyOp (s.1.getD idx defaultEntry) (s.2.getD idx Op.add)
      (s.1.getD (idx + 1) defaultEntry) = Except.ok r ∧
    s' = (s.1.take idx ++ Entry.mk r false :: s.1.drop (idx + 2),
      s.2.take idx ++ s.2.drop (idx + 1))

/-- The state is about to divide by zero: the leftmost operator of the
priority class is a division whose percent-adjusted right operand is
zero. -/
def DivZeroNow (prio : List Op) (s : List Entry × List Op) : Prop :=
  ∃ idx,
    findPrio prio s.2 = some idx ∧
    s.2.getD idx Op.add = Op.div ∧
    pv (s.1.getD (idx + 1) defaultEntry) = 0

/-- A division by zero occurs somewhere during the two-pass reduction
started from the given operand and operator lists: either pass one
reaches a state about to divide by zero, or pass one completes and pass
two reaches one. -/
def DivZeroDuring (nums : List Entry) (ops : List Op) : Prop :=
  (∃ s, Relation.ReflTransGen (PassStep mulDivP) (nums, ops) s ∧
    DivZeroNow mulDivP s) ∨
  (∃ mid s, runPass mulDivP nums ops = Except.ok mid ∧
    Relation.ReflTransGen (PassStep addSubP) mid s ∧ DivZeroNow addSubP s)

/-! ## Overflow-aware evaluator

The rational evaluator above keeps the finite regime exact and serves
the claims whose behavior never reaches the double overflow bound.  Real
JS numbers do overflow: parseFloat and every arithmetic operation round
their exact result to the nearest double and produce a signed Infinity
as soon as that exact result reaches 2 ^ 1024 - 2 ^ 970 in magnitude.
The second embedding of tokenize and evaluate below keeps exact
rationals strictly below that bound and models the overflow to the
signed infinities and NaN — which is exactly what the final non-finite
check of evaluate (source line 299) observes, and what the single-token
fast path (source lines 261-264) lets through unchecked. -/

/-- The magnitude at which IEEE round-to-nearest overflows a double to
Infinity: the midpoint above the largest finite double; an exact value
at the midpoint ties away from the finite side.  The power is computed
in the naturals and cast. -/
def overflowBound : ℚ := ((2 ^ 1024 - 2 ^ 970 : ℕ) : ℚ)

/-- Saturate an exact finite value to a signed infinity at the double
overflow bound; NaN and the infinities pass through. -/
def sat (x : JNum) : JNum :=
  match x with
  | JNum.fin q =>
    if overflowBound ≤ q then JNum.inf true
    else if q ≤ -overflowBound then JNum.inf false
    else JNum.fin q
  | v => v

/-- JS addition of evaluator values: exact below the bound, overflowing
to a signed infinity at it. -/
def jsnAdd (a b : JNum) : JNum := sat (jnAdd a b)

/-- JS subtraction of evaluator values. -/
def jsnSub (a b : JNum) : JNum := sat (jnSub a b)

/-- JS multiplication of evaluator values. -/
def jsnMul (a b : JNum) : JNum := sat (jnMul a b)

/-- JS division of evaluator values. -/
def jsnDiv (a b : JNum) : JNum := sat (jnDiv a b)

/-- parseFloat on a numeral run followed by the Number.isNaN abort of
tokenize (source line 244): an unparseable numeral is none, a parseable
one saturates at the overflow bound — Infinity is not NaN, so it passes
the abort test and becomes an ordinary token value. -/
def parseFloatSat (s : List Char) : Option JNum :=
  match parseFloatCore s with
  | none => none
  | some q => some (sat (JNum.fin q))

/-- Tokens of the overflow-aware evaluator. -/
inductive TokJS : Type
  | num (value : JNum) (isPercent : Bool)
  | op (o : Op)
deriving DecidableEq

/-- The scan loop of tokenize over overflow-aware values: identical to
tokenizeF except that a numeral value may saturate to Infinity. -/
def tokenizeJSF : ℕ → List Char → Option (List TokJS)
  | _, [] => some []
  | 0, _ :: _ => none
  | fuel + 1, c :: cs =>
    match charOp? c with
    | some o => (tokenizeJSF fuel cs).map (fun ts => TokJS.op o :: ts)
    | none =>
      if isNumChar c then
        match parseFloatSat ((c :: cs).takeWhile isNumChar) with
        | none => none
        | some n =>
          if ((c :: cs).dropWhile isNumChar).head? = some '%' then
            (tokenizeJSF fuel ((c :: cs).dropWhile isNumChar).tail).map
              (fun ts => TokJS.num n true :: ts)
          else
            (tokenizeJSF fuel ((c :: cs).dropWhile isNumChar)).map
              (fun ts => TokJS.num n false :: ts)
      else tokenizeJSF fuel cs

/-- tokenize over overflow-aware values, with its (always sufficient)
fuel. -/
def tokenizeJS (cs : List Char) : Option (List TokJS) :=
  tokenizeJSF cs.length cs

/-- A pending operand of the overflow-aware reduction loop. -/
structure EntryJS : Type where
  value : JNum
  isPercent : Bool
deriving DecidableEq

/-- Default operand for out-of-range list reads, never actually read. -/
def defaultEntryJS : EntryJS := ⟨JNum.fin 0, false⟩

/-- Percent-adjusted operand value over overflow-aware values. -/
def pvJS (e : EntryJS) : JNum :=
  if e.isPercent then jsnDiv e.value (JNum.fin 100) else e.value

/-- One combination step (source lines 280-293) over overflow-aware
values.  The strict-equality test bVal === 0 of the division guard holds
only for the number zero, so NaN and infinite divisors divide normally;
every arithmetic result saturates at the overflow bound as JS's does. -/
def applyOpJS (a : EntryJS) (op : Op) (b : EntryJS) : Except Unit JNum :=
  match op with
  | Op.mul => Except.ok (jsnMul (pvJS a) (pvJS b))
  | Op.div =>
    if pvJS b = JNum.fin 0 then Except.error ()
    else Except.ok (jsnDiv (pvJS a) (pvJS b))
  | Op.add =>
    Except.ok (jsnAdd (pvJS a)
      (if b.isPercent then jsnMul (pvJS a) (jsnDiv b.value (JNum.fin 100))
       else pvJS b))
  | Op.sub =>
    Except.ok (jsnSub (pvJS a)
      (if b.isPercent then jsnMul (pvJS a) (jsnDiv b.value (JNum.fin 100))
       else pvJS b))

/-- One reduction pass over overflow-aware values: the same loop as
runPassF. -/
def runPassJSF (prio : List Op) : ℕ → List EntryJS → List Op →
    Except Unit (List EntryJS × List Op)
  | 0, nums, ops => Except.ok (nums, ops)
  | fuel + 1, nums, ops =>
    match findPrio prio ops with
    | none => Except.ok (nums, ops)
    | some idx =>
      match applyOpJS (nums.getD idx defaultEntryJS) (ops.getD idx Op.add)
          (nums.getD (idx + 1) defaultEntryJS) with
      | Except.error e => Except.error e
      | Except.ok r =>
        runPassJSF prio fuel
          (nums.take idx ++ EntryJS.mk r false :: nums.drop (idx + 2))
          (ops.take idx ++ ops.drop (idx + 1))

/-- One overflow-aware pass with its (always sufficient) fuel. -/
def runPassJS (prio : List Op) (nums : List EntryJS) (ops : List Op) :
    Except Unit (List EntryJS × List Op) :=
  runPassJSF prio ops.length nums ops

/-- The number-subsequence of an overflow-aware token list. -/
def tokenNumsJS (ts : List TokJS) : List EntryJS :=
  ts.filterMap (fun t =>
    match t with
    | TokJS.num v p => some (EntryJS.mk v p)
    | TokJS.op _ => none)

/-- The operator-subsequence of an overflow-aware token list. -/
def tokenOpsJS (ts : List TokJS) : List Op :=
  ts.filterMap (fun t =>
    match t with
    | TokJS.num _ _ => none
    | TokJS.op o => some o)

/-- Both overflow-aware reduction passes followed by the percent
adjustment of the one remaining operand. -/
def reduceTokensJS (nums : List EntryJS) (ops : List Op) : Except Unit JNum :=
  match runPassJS mulDivP nums ops with
  | Except.error e => Except.error e
  | Except.ok (nums1, ops1) =>
    match runPassJS addSubP nums1 ops1 with
    | Except.error e => Except.error e
    | Except.ok (nums2, _) => Except.ok (pvJS (nums2.headD defaultEntryJS))

/-- Math.round(result * 1e10) / 1e10 over overflow-aware values: the
multiplication by 1e10 itself rounds and can overflow, and Math.round
and the final division both preserve a signed infinity, so the rounding
step can turn a finite result into Number(Infinity) after the
non-finite check has already passed. -/
def round10JS (q : ℚ) : JNum :=
  match sat (JNum.fin (q * 10000000000)) with
  | JNum.fin x => JNum.fin ((Int.floor (x + 1 / 2) : ℚ) / 10000000000)
  | v => v

/-- Result type of the overflow-aware evaluate: a returned Number may
itself be non-finite. -/
inductive EvalResultJS : Type
  | num (x : JNum)
  | err
  | noRes
deriving DecidableEq

/-- Overflow-aware embedding of evaluate from app.js, including the
final result === Infinity, -Infinity or Number.isNaN check of source
line 299.  That check runs only on the multi-token path and before the
rounding step; the single-token fast path (source lines 261-264) returns
the token value with no finiteness check at all. -/
def evaluateJS (cs : List Char) : EvalResultJS :=
  match tokenizeJS cs with
  | none => EvalResultJS.noRes
  | some tokens =>
    match tokens.head? with
    | none => EvalResultJS.noRes
    | some (TokJS.op _) => EvalResultJS.noRes
    | some (TokJS.num v p) =>
      if tokens.length = 1 then
        EvalResultJS.num (if p then jsnDiv v (JNum.fin 100) else v)
      else
        if (tokenOpsJS tokens).length ≠ (tokenNumsJS tokens).length - 1 then
          EvalResultJS.noRes
        else
          match reduceTokensJS (tokenNumsJS tokens) (tokenOpsJS tokens) with
          | Except.error _ => EvalResultJS.err
          | Except.ok result =>
            match result with
            | JNum.inf _ => EvalResultJS.err
            | JNum.nan => EvalResultJS.err
            | JNum.fin q => EvalResultJS.num (round10JS q)

/-- One iteration of the overflow-aware reduction loop as a relation on
states. -/
def PassStepJS (prio : List Op) (s s' : List EntryJS × List Op) : Prop :=
  ∃ idx r,
    findPrio prio s.2 = some idx ∧
    applyOpJS (s.1.getD idx defaultEntryJS) (s.2.getD idx Op.add)
      (s.1.getD (idx + 1) defaultEntryJS) = Except.ok r ∧
    s' = (s.1.take idx ++ EntryJS.mk r false :: s.1.drop (idx + 2),
      s.2.take idx ++ s.2.drop (idx + 1))

/-- The overflow-aware state is about to divide by zero: the leftmost
operator of the priority class is a division whose percent-adjusted
right operand is the number zero. -/
def DivZeroNowJS (prio : List Op) (s : List EntryJS × List Op) : Prop :=
  ∃ idx,
    findPrio prio s.2 = some idx ∧
    s.2.getD idx Op.add = Op.div ∧
    pvJS (s.1.getD (idx + 1) defaultEntryJS) = JNum.fin 0

/-- A division by zero occurs somewhere during the overflow-aware
two-pass reduction. -/
def DivZeroDuringJS (nums : List EntryJS) (ops : List Op) : Prop :=
  (∃ s, Relation.ReflTransGen (PassStepJS mulDivP) (nums, ops) s ∧
    DivZeroNowJS mulDivP s) ∨
  (∃ mid s, runPassJS mulDivP nums ops = Except.ok mid ∧
    Relation.ReflTransGen (PassStepJS addSubP) mid s ∧ DivZeroNowJS addSubP s)

/-! ## Supporting lemmas -/

/-- Helper for tokenize termination: dropWhile never lengthens a list. -/
theorem length_dropWhile_le (p : Char → Bool) (l : List Char) :
    (l.dropWhile p).length ≤ l.length := by
  induction l with
  | nil => simp [List.dropWhile]
  | cons c cs ih =>
    by_cases h : p c
    · rw [List.dropWhile_cons_of_pos h]
      exact Nat.le_trans ih (Nat.le_succ _)
    · rw [List.dropWhile_cons_of_neg h]

/-- Fuel does not matter as long as it is at least the length of the
input. -/
theorem tokenizeF_congr {f1 f2 : ℕ} {cs : List Char}
    (h1 : cs.length ≤ f1) (h2 : cs.length ≤ f2) :
    tokenizeF f1 cs = tokenizeF f2 cs := by
  induction f1 generalizing f2 cs with
  | zero =>
    match cs with
    | [] =>
      match f2 with
      | 0 => rfl
      | _ + 1 => rfl
    | c :: cs' => simp at h1
  | succ f1 ih =>
    match cs with
    | [] =>
      match f2 with
      | 0 => rfl
      | _ + 1 => rfl
    | c :: cs' =>
      match f2 with
      | 0 => simp at h2
      | f2 + 1 =>
        simp only [List.length_cons] at h1 h2
        have hdrop : (cs'.dropWhile isNumChar).length ≤ cs'.length :=
          length_dropWhile_le _ _
        have htail : (cs'.dropWhile isNumChar).tail.length ≤ cs'.length := by
          have := List.length_tail (cs'.dropWhile isNumChar)
          omega
        simp only [tokenizeF]
        split
        · rename_i o heq
          have e := @ih f2 cs' (by omega) (by omega)
          rw [e]
        · split
          · rename_i heq hn
            have hd : (c :: cs').dropWhile isNumChar = cs'.dropWhile isNumChar :=
              List.dropWhile_cons_of_pos hn
            split
            · rfl
            · split
              · have e := @ih f2 (((c :: cs').dropWhile isNumChar).tail)
                  (by rw [hd]; omega) (by rw [hd]; omega)
                rw [e]
              · have e := @ih f2 ((c :: cs').dropWhile isNumChar)
                  (by rw [hd]; omega) (by rw [hd]; omega)
                rw [e]
          · rename_i heq hn
            exact @ih f2 cs' (by omega) (by omega)

/-- tokenizeF at any sufficient fuel computes tokenize. -/
theorem tokenizeF_fuel {fuel : ℕ} {cs : List Char} (h : cs.length ≤ fuel) :
    tokenizeF fuel cs = tokenize cs :=
  tokenizeF_congr h (Nat.le_refl _)

theorem findPrio_lt_length {prio l : List Op} {idx : ℕ}
    (h : findPrio prio l = some idx) : idx < l.length := by
  induction l generalizing idx with
  | nil => simp [findPrio] at h
  | cons o rest ih =>
    rw [findPrio] at h
    simp only [List.length_cons]
    by_cases ho : o ∈ prio
    · simp [ho] at h
      omega
    · simp [ho] at h
      obtain ⟨j, hj, rfl⟩ := h
      have := ih hj
      omega

/-- Length of the spliced operator list. -/
theorem length_splice_ops {ops : List Op} {idx : ℕ} (h : idx < ops.length) :
    (ops.take idx ++ ops.drop (idx + 1)).length = ops.length - 1 := by
  simp only [List.length_append, List.length_take, List.length_drop]
  omega

/-- Fuel does not matter as long as it is at least the length of the
operator list. -/
theorem runPassF_congr (prio : List Op) {f1 f2 : ℕ} {nums : List Entry}
    {ops : List Op} (h1 : ops.length ≤ f1) (h2 : ops.length ≤ f2) :
    runPassF prio f1 nums ops = runPassF prio f2 nums ops := by
  induction f1 generalizing f2 nums ops with
  | zero =>
    have hops : ops = [] := List.length_eq_zero.mp (Nat.le_zero.mp h1)
    subst hops
    match f2 with
    | 0 => rfl
    | f2 + 1 =>
      simp only [runPassF, findPrio]
  | succ f1 ih =>
    match f2 with
    | 0 =>
      have hops : ops = [] := List.length_eq_zero.mp (Nat.le_zero.mp h2)
      subst hops
      simp only [runPassF, findPrio]
    | f2 + 1 =>
      simp only [runPassF]
      split
      · rfl
      · rename_i idx hf
        have hlt : idx < ops.length := findPrio_lt_length hf
        have hlen : (ops.take idx ++ ops.drop (idx + 1)).length = ops.length - 1 :=
          length_splice_ops hlt
        split
        · rfl
        · rename_i r heq
          exact @ih f2 (nums.take idx ++ Entry.mk r false :: nums.drop (idx + 2))
            (ops.take idx ++ ops.drop (idx + 1)) (by omega) (by omega)

/-- runPassF at any sufficient fuel computes runPass. -/
theorem runPassF_fuel (prio : List Op) {fuel : ℕ} {nums : List Entry}
    {ops : List Op} (h : ops.length ≤ fuel) :
    runPassF prio fuel nums ops = runPass prio nums ops :=
  runPassF_congr prio h (Nat.le_refl _)

/-! ## Concrete evaluations of the testable properties of the spec -/

example : evaluate "12+8".toList = EvalResult.num 20 := by with_unfolding_all rfl

example : evaluate "45*3".toList = EvalResult.num 135 := by with_unfolding_all rfl

example : evaluate "2+3*4".toList = EvalResult.num 14 := by with_unfolding_all rfl

example : evaluate "20/4/5".toList = EvalResult.num 1 := by with_unfolding_all rfl

example : evaluate "10/0".toList = EvalResult.err := by with_unfolding_all rfl

example : evaluate "100+8%".toList = EvalResult.num 108 := by with_unfolding_all rfl

example : evaluate "50%".toList = EvalResult.num (1/2) := by with_unfolding_all rfl

example : evaluate "".toList = EvalResult.noRes := by with_unfolding_all rfl

example : evaluate "abc".toList = EvalResult.noRes := by with_unfolding_all rfl

example : evaluate "..".toList = EvalResult.noRes := by with_unfolding_all rfl

example : evaluate "135*0.07".toList = EvalResult.num (945/100) := by with_unfolding_all rfl

example :
    getDiagramResults
      [DiagramBlock.mk "5".toList "*".toList "20".toList,
       DiagramBlock.mk "#1".toList "+".toList "30".toList,
       DiagramBlock.mk "#2".toList "-".toList "15".toList] =
      [DVal.num 100, DVal.num 130, DVal.num 115] := by
  with_unfolding_all rfl

example :
    resolveDiagramValue "#1".toList [DVal.str "Error"] = DVal.str "Error" := by
  with_unfolding_all rfl

example :
    getDiagramResults
      [DiagramBlock.mk "10".toList "/".toList "0".toList,
       DiagramBlock.mk "#1".toList "*".toList "5".toList] =
      [DVal.str "Error", DVal.nan] := by
  with_unfolding_all rfl

example :
    computeDiagramBlock (DiagramBlock.mk "1".toList "x".toList "2".toList) [] =
      DVal.null := by
  with_unfolding_all rfl

example : evaluateWithX "2x+1".toList 3 = EvalResult.num 7 := by
  with_unfolding_all rfl

example : evaluateWithX "x2".toList 5 = EvalResult.num 10 := by
  with_unfolding_all rfl

example : evaluateWithX "1/x".toList 0 = EvalResult.noRes := by
  with_unfolding_all rfl

/-! ## Tokenizer unfolding lemmas -/

/-- Unfolding tokenize on an operator character. -/
theorem tokenize_cons_op (c : Char) (o : Op) (cs : List Char)
    (h : charOp? c = some o) :
    tokenize (c :: cs) = (tokenize cs).map (fun ts => Tok.op o :: ts) := by
  unfold tokenize
  simp only [List.length_cons, tokenizeF, h]

/-- Unfolding tokenize on a skipped character. -/
theorem tokenize_cons_skip (c : Char) (cs : List Char)
    (h1 : charOp? c = none) (h2 : isNumChar c = false) :
    tokenize (c :: cs) = tokenize cs := by
  unfold tokenize
  simp only [List.length_cons, tokenizeF, h1, h2, Bool.false_eq_true, if_false]

/-- Unfolding tokenize on a numeral run that does not parseFloat. -/
theorem tokenize_cons_num_fail (c : Char) (cs : List Char)
    (h1 : charOp? c = none) (h2 : isNumChar c = true)
    (h3 : parseFloatCore ((c :: cs).takeWhile isNumChar) = none) :
    tokenize (c :: cs) = none := by
  unfold tokenize
  simp only [List.length_cons, tokenizeF, h1, h2, h3, if_true]

/-! ## Claim theorems -/

/-- C9: every input string that begins with a minus sign evaluates to no
result, because the minus is tokenized as an operator and never as a
numeric sign, so the first token is not a number (or tokenization fails
later, which also gives no result). -/
theorem C9_leading_minus_noRes (cs : List Char) :
    evaluate ('-' :: cs) = EvalResult.noRes := by
  have h := tokenize_cons_op '-' Op.sub cs rfl
  unfold evaluate
  rw [h]
  match htk : tokenize cs with
  | none => rfl
  | some ts => rfl

/-- C10: an input that tokenizes to exactly one number token evaluates
to that token's value (divided by 100 when percent-flagged) with no
round-to-ten-decimals step, so evaluate can differ from evaluate of the
same numeral prefixed by zero-plus: the eleven-decimal literal keeps its
value alone but rounds to zero after an addition. -/
theorem C10_single_token_unrounded :
    (∀ (cs : List Char) (v : ℚ) (p : Bool),
      tokenize cs = some [Tok.num v p] →
      evaluate cs = EvalResult.num (if p then v / 100 else v)) ∧
    evaluate "0.00000000004".toList = EvalResult.num (1 / 25000000000) ∧
    evaluate "0+0.00000000004".toList = EvalResult.num 0 ∧
    (1 : ℚ) / 25000000000 ≠ 0 := by
  refine ⟨?_, ?_, ?_, ?_⟩
  · intro cs v p h
    unfold evaluate
    rw [h]
    rfl
  · with_unfolding_all rfl
  · with_unfolding_all rfl
  · norm_num

/-- Witness for C10 at a concrete input. -/
theorem C10_witness :
    evaluate "5".toList = EvalResult.num (if false then 5 / 100 else 5) :=
  C10_single_token_unrounded.1 "5".toList 5 false (by with_unfolding_all rfl)

/-- C5: for plus and minus with a percent-flagged right operand the
right-hand contribution is the left value times raw right over one
hundred, the left operand itself being percent-resolved first; hence the
price-plus-percent examples of the spec. -/
theorem C5_percent_semantics :
    (∀ a b : Entry, b.isPercent = true →
      applyOp a Op.add b = Except.ok (pv a + pv a * (b.value / 100)) ∧
      applyOp a Op.sub b = Except.ok (pv a - pv a * (b.value / 100))) ∧
    evaluate "100+8%".toList = EvalResult.num 108 ∧
    evaluate "100-8%".toList = EvalResult.num 92 ∧
    evaluate "50%".toList = EvalResult.num (1 / 2) := by
  refine ⟨fun a b hb => ⟨?_, ?_⟩, ?_, ?_, ?_⟩
  · simp [applyOp, hb]
  · simp [applyOp, hb]
  · with_unfolding_all rfl
  · with_unfolding_all rfl
  · with_unfolding_all rfl

/-- Witness for C5 at a concrete operand pair. -/
theorem C5_witness :
    applyOp (Entry.mk 100 false) Op.add (Entry.mk 8 true) =
      Except.ok (pv (Entry.mk 100 false) + pv (Entry.mk 100 false) * (8 / 100)) :=
  (C5_percent_semantics.1 (Entry.mk 100 false) (Entry.mk 8 true) rfl).1

/-- C2 as stated is false: an unknown non-blank operator does not default
to plus; with both operands resolving to numbers one and two and operator
x, computeDiagramBlock returns null, not their sum. -/
theorem C2_counterexample :
    resolveDiagramValue "1".toList [] = DVal.num 1 ∧
    resolveDiagramValue "2".toList [] = DVal.num 2 ∧
    computeDiagramBlock (DiagramBlock.mk "1".toList "x".toList "2".toList) [] =
      DVal.null ∧
    DVal.null ≠ DVal.num (1 + 2) := by
  refine ⟨?_, ?_, ?_, ?_⟩
  · with_unfolding_all rfl
  · with_unfolding_all rfl
  · with_unfolding_all rfl
  · exact fun h => DVal.noConfusion h

/-- C2 amended: an exactly-empty operator slot defaults to plus, while a
non-empty operator whose trimmed value is none of the four symbols
yields null (the block is unresolved), never a defaulted addition. -/
theorem C2_amended_operator_default :
    ∀ (b : DiagramBlock) (rs : List DVal) (l r : ℚ),
      resolveDiagramValue b.left rs = DVal.num l →
      resolveDiagramValue b.right rs = DVal.num r →
      (b.op = [] → computeDiagramBlock b rs = DVal.num (l + r)) ∧
      (b.op ≠ [] → jsTrim b.op ≠ ['+'] → jsTrim b.op ≠ ['-'] →
        jsTrim b.op ≠ ['*'] → jsTrim b.op ≠ ['/'] →
        computeDiagramBlock b rs = DVal.null) := by
  intro b rs l r hl hr
  constructor
  · intro hop
    have htrim : jsTrim ['+'] = ['+'] := rfl
    simp [computeDiagramBlock, hl, hr, hop, htrim, jsAdd, toJNum, jnAdd, ofJNum]
  · intro hne h1 h2 h3 h4
    simp [computeDiagramBlock, hl, hr, hne, h1, h2, h3, h4]

/-- Witness for C2 amended at a concrete block. -/
theorem C2_witness :
    computeDiagramBlock (DiagramBlock.mk "3".toList [] "4".toList) [] =
      DVal.num (3 + 4) :=
  (C2_amended_operator_default (DiagramBlock.mk "3".toList [] "4".toList) [] 3 4
    (by with_unfolding_all rfl) (by with_unfolding_all rfl)).1 rfl

/-- C1 as stated is false: when the prior result at the referenced slot
is the error marker, resolveDiagramValue returns the error marker itself,
not null, and the error state then flows into the referencing block's
arithmetic (becoming NaN under star) instead of propagating as null. -/
theorem C1_counterexample :
    resolveDiagramValue "#1".toList [DVal.str "Error"] = DVal.str "Error" ∧
    DVal.str "Error" ≠ DVal.null ∧
    getDiagramResults
      [DiagramBlock.mk "10".toList "/".toList "0".toList,
       DiagramBlock.mk "#1".toList "*".toList "5".toList] =
      [DVal.str "Error", DVal.nan] := by
  refine ⟨?_, ?_, ?_⟩
  · with_unfolding_all rfl
  · exact fun h => DVal.noConfusion h
  · with_unfolding_all rfl

/-- A decimal digit is not whitespace. -/
theorem isDigit_not_whitespace {c : Char} (h : c.isDigit = true) :
    c.isWhitespace = false := by
  simp only [Char.isDigit, Bool.and_eq_true, decide_eq_true_eq] at h
  obtain ⟨h1, h2⟩ := h
  simp only [Char.isWhitespace, Bool.or_eq_true, decide_eq_true_eq,
    Bool.or_eq_false_iff, decide_eq_false_iff_not]
  refine ⟨⟨⟨?_, ?_⟩, ?_⟩, ?_⟩ <;>
    · intro hc
      subst hc
      simp at h1 h2

/-- Trimming is the identity on a string with no whitespace. -/
theorem jsTrim_eq_self {l : List Char}
    (h : ∀ c ∈ l, c.isWhitespace = false) : jsTrim l = l := by
  unfold jsTrim
  have h1 : l.dropWhile Char.isWhitespace = l := by
    cases l with
    | nil => rfl
    | cons a t =>
      rw [List.dropWhile_cons_of_neg]
      simp [h a (by simp)]
  rw [h1]
  have h2 : l.reverse.dropWhile Char.isWhitespace = l.reverse := by
    cases hr : l.reverse with
    | nil => rfl
    | cons a t =>
      rw [List.dropWhile_cons_of_neg]
      have ha : a ∈ l := by
        have : a ∈ l.reverse := by rw [hr]; simp
        simpa using this
      simp [h a ha]
  rw [h2, List.reverse_reverse]

/-- C1 amended: a positional reference whose slot exists returns the
stored value verbatim unless that value is null — in particular the
error marker is passed through as itself. -/
theorem C1_amended_error_passthrough :
    ∀ (rs : List DVal) (ds : List Char) (v : DVal),
      ds ≠ [] → ds.all Char.isDigit = true → 1 ≤ digitsToNat ds →
      rs.get? (digitsToNat ds - 1) = some v →
      resolveDiagramValue ('#' :: ds) rs =
        (if v = DVal.null then DVal.null else v) := by
  intro rs ds v hne hdig hk hv
  have htrim : jsTrim ('#' :: ds) = '#' :: ds := by
    apply jsTrim_eq_self
    intro c hc
    rcases List.mem_cons.mp hc with rfl | hmem
    · rfl
    · exact isDigit_not_whitespace (by
        have := List.all_eq_true.mp hdig
        simpa using this c hmem)
  have hmatch : refMatch ('#' :: ds) = some (digitsToNat ds) := by
    simp [refMatch, hne, hdig]
  simp only [resolveDiagramValue, htrim, hmatch]
  rw [if_neg (by simp), if_pos hk, hv]

/-- Witness for C1 amended at a concrete result list holding the error
marker. -/
theorem C1_witness :
    resolveDiagramValue ('#' :: ['1']) [DVal.str "Error"] =
      (if DVal.str "Error" = DVal.null then DVal.null
       else DVal.str "Error") :=
  C1_amended_error_passthrough [DVal.str "Error"] ['1'] (DVal.str "Error")
    (by simp) (by decide) (by decide) rfl

/-- findPrio really is leftmost: every earlier position holds an
operator outside the priority class. -/
theorem findPrio_leftmost (prio : List Op) :
    ∀ (ops : List Op) (idx : ℕ), findPrio prio ops = some idx →
      ∀ j, j < idx → ∀ o, ops.get? j = some o → o ∉ prio := by
  intro ops
  induction ops with
  | nil => intro idx h; simp [findPrio] at h
  | cons o' rest ih =>
    intro idx h j hj o hget
    rw [findPrio] at h
    by_cases ho : o' ∈ prio
    · simp [ho] at h
      omega
    · simp [ho] at h
      obtain ⟨i, hi, rfl⟩ := h
      match j, hget with
      | 0, hget =>
        have he : o' = o := by simpa using hget
        subst he
        exact ho
      | j' + 1, hget =>
        exact ih i hi j' (by omega) o (by simpa using hget)

/-- One successful combination unfolds runPass to runPass of the spliced
state, whose new operand is non-percent. -/
theorem runPass_step (prio : List Op) (nums : List Entry) (ops : List Op)
    (idx : ℕ) (r : ℚ) (hf : findPrio prio ops = some idx)
    (happ : applyOp (nums.getD idx defaultEntry) (ops.getD idx Op.add)
      (nums.getD (idx + 1) defaultEntry) = Except.ok r) :
    runPass prio nums ops =
      runPass prio (nums.take idx ++ Entry.mk r false :: nums.drop (idx + 2))
        (ops.take idx ++ ops.drop (idx + 1)) := by
  have hlt : idx < ops.length := findPrio_lt_length hf
  match ops, hf, happ, hlt with
  | o :: ops', hf, happ, hlt =>
    have hsplice : ((o :: ops').take idx ++ (o :: ops').drop (idx + 1)).length =
        ops'.length := by
      have := length_splice_ops hlt
      simpa using this
    show runPassF prio (o :: ops').length nums (o :: ops') = _
    simp only [List.length_cons, runPassF, hf, happ]
    unfold runPass
    rw [hsplice]

/-- C6: the reduction is two leftmost-first passes, multiplicative before
additive, and each step splices in a non-percent intermediate operand;
hence the precedence and left-associativity examples of the spec. -/
theorem C6_two_pass_leftmost :
    evaluate "2+3*4".toList = EvalResult.num 14 ∧
    evaluate "2*3+4".toList = EvalResult.num 10 ∧
    evaluate "20/4/5".toList = EvalResult.num 1 ∧
    (∀ (prio ops : List Op) (idx : ℕ), findPrio prio ops = some idx →
      ∀ j, j < idx → ∀ o, ops.get? j = some o → o ∉ prio) ∧
    (∀ (prio : List Op) (nums : List Entry) (ops : List Op) (idx : ℕ) (r : ℚ),
      findPrio prio ops = some idx →
      applyOp (nums.getD idx defaultEntry) (ops.getD idx Op.add)
        (nums.getD (idx + 1) defaultEntry) = Except.ok r →
      runPass prio nums ops =
        runPass prio (nums.take idx ++ Entry.mk r false :: nums.drop (idx + 2))
          (ops.take idx ++ ops.drop (idx + 1))) := by
  refine ⟨?_, ?_, ?_, findPrio_leftmost, runPass_step⟩
  · with_unfolding_all rfl
  · with_unfolding_all rfl
  · with_unfolding_all rfl

/-- Witness for C6 at a concrete operator list: with the multiplicative
pass looking at plus-then-times, the found index is one and the operator
before it is outside the class. -/
theorem C6_witness : Op.add ∉ mulDivP :=
  C6_two_pass_leftmost.2.2.2.1 mulDivP [Op.add, Op.mul] 1 (by decide) 0
    (by decide) Op.add rfl

/-! ## Lemmas on the diagram result fold -/

theorem getDiagramResultsAux_length (blocks : List DiagramBlock) :
    ∀ acc, (getDiagramResultsAux blocks acc).length =
      acc.length + blocks.length := by
  induction blocks with
  | nil => intro acc; rfl
  | cons b rest ih =>
    intro acc
    rw [getDiagramResultsAux, ih]
    simp only [List.length_append, List.length_cons, List.length_nil]
    omega

theorem getDiagramResultsAux_append (b1 b2 : List DiagramBlock) :
    ∀ acc, getDiagramResultsAux (b1 ++ b2) acc =
      getDiagramResultsAux b2 (getDiagramResultsAux b1 acc) := by
  induction b1 with
  | nil => intro acc; rfl
  | cons b rest ih =>
    intro acc
    rw [List.cons_append, getDiagramResultsAux, getDiagramResultsAux, ih]

theorem getDiagramResultsAux_prefix (blocks : List DiagramBlock) :
    ∀ acc, ∃ t, getDiagramResultsAux blocks acc = acc ++ t := by
  induction blocks with
  | nil => intro acc; exact ⟨[], by simp [getDiagramResultsAux]⟩
  | cons b rest ih =>
    intro acc
    obtain ⟨t, ht⟩ :=
      ih (acc ++ [storeResult (computeDiagramBlock b acc)])
    exact ⟨storeResult (computeDiagramBlock b acc) :: t, by
      rw [getDiagramResultsAux, ht]; simp⟩

/-- C7: the results are one per block, computed strictly in list order so
each block sees exactly the prefix of already computed results, rounded
on storage; a positional reference past the prior results (own position,
later position, out of range) is null; and the three-block example of the
spec computes as stated.  Totality of getDiagramResults in this model is
the no-throw, no-loop part of the claim. -/
theorem C7_recompute_in_order :
    (∀ blocks : List DiagramBlock,
      (getDiagramResults blocks).length = blocks.length) ∧
    (∀ (blocks1 : List DiagramBlock) (b : DiagramBlock)
        (blocks2 : List DiagramBlock),
      (getDiagramResults (blocks1 ++ b :: blocks2)).take blocks1.length =
        getDiagramResults blocks1 ∧
      (getDiagramResults (blocks1 ++ b :: blocks2)).get? blocks1.length =
        some (storeResult (computeDiagramBlock b (getDiagramResults blocks1)))) ∧
    (∀ (rs : List DVal) (ds : List Char), ds.all Char.isDigit = true →
      rs.length < digitsToNat ds →
      resolveDiagramValue ('#' :: ds) rs = DVal.null) ∧
    getDiagramResults
      [DiagramBlock.mk "5".toList "*".toList "20".toList,
       DiagramBlock.mk "#1".toList "+".toList "30".toList,
       DiagramBlock.mk "#2".toList "-".toList "15".toList] =
      [DVal.num 100, DVal.num 130, DVal.num 115] := by
  refine ⟨?_, ?_, ?_, ?_⟩
  · intro blocks
    have := getDiagramResultsAux_length blocks []
    simpa [getDiagramResults] using this
  · intro blocks1 b blocks2
    have hlen1 : (getDiagramResults blocks1).length = blocks1.length := by
      have := getDiagramResultsAux_length blocks1 []
      simpa [getDiagramResults] using this
    obtain ⟨t, ht⟩ := getDiagramResultsAux_prefix blocks2
      (getDiagramResults blocks1 ++
        [storeResult (computeDiagramBlock b (getDiagramResults blocks1))])
    have h2 := getDiagramResultsAux_append blocks1 (b :: blocks2) []
    have hsplit : getDiagramResults (blocks1 ++ b :: blocks2) =
        getDiagramResults blocks1 ++
          storeResult (computeDiagramBlock b (getDiagramResults blocks1)) :: t := by
      calc getDiagramResults (blocks1 ++ b :: blocks2)
          = getDiagramResultsAux (b :: blocks2) (getDiagramResults blocks1) := h2
        _ = getDiagramResultsAux blocks2 (getDiagramResults blocks1 ++
              [storeResult (computeDiagramBlock b (getDiagramResults blocks1))]) := by
              rw [getDiagramResultsAux]
        _ = _ := by rw [ht]; simp
    constructor
    · rw [hsplit, ← hlen1, List.take_left]
    · rw [hsplit]
      rw [List.get?_append_right (by omega)]
      rw [← hlen1]
      simp
  · intro rs ds hdig hlt
    match ds, hdig, hlt with
    | [], _, hlt => simp [digitsToNat] at hlt
    | d :: ds', hdig, hlt =>
      have htrim : jsTrim ('#' :: d :: ds') = '#' :: d :: ds' := by
        apply jsTrim_eq_self
        intro c hc
        rcases List.mem_cons.mp hc with rfl | hmem
        · rfl
        · exact isDigit_not_whitespace (by
            have := List.all_eq_true.mp hdig
            simpa using this c hmem)
      have hmatch : refMatch ('#' :: d :: ds') =
          some (digitsToNat (d :: ds')) := by
        simp [refMatch, hdig]
      have hget : rs.get? (digitsToNat (d :: ds') - 1) = none :=
        List.get?_eq_none.mpr (by omega)
      simp only [resolveDiagramValue, htrim, hmatch]
      rw [if_neg (by simp)]
      by_cases hk : 1 ≤ digitsToNat (d :: ds')
      · rw [if_pos hk, hget]
      · rw [if_neg hk]
  · with_unfolding_all rfl

/-- Witness for C7 at a concrete out-of-range reference. -/
theorem C7_witness : resolveDiagramValue ('#' :: ['3']) [] = DVal.null :=
  C7_recompute_in_order.2.2.1 [] ['3'] (by decide) (by decide)

/-! ## Unfolding lemmas for evaluate -/

/-- evaluate on a single number token: the fast path, no rounding. -/
theorem evaluate_single_eq (cs : List Char) (v : ℚ) (p : Bool)
    (htk : tokenize cs = some [Tok.num v p]) :
    evaluate cs = EvalResult.num (if p then v / 100 else v) := by
  unfold evaluate
  rw [htk]
  rfl

/-- evaluate on a well-shaped multi-token stream reduces the two passes
and rounds, never returning no-result. -/
theorem evaluate_multi_eq (cs : List Char) (v : ℚ) (p : Bool) (t2 : Tok)
    (ts : List Tok)
    (htk : tokenize cs = some (Tok.num v p :: t2 :: ts))
    (hshape : (tokenOps (Tok.num v p :: t2 :: ts)).length =
      (tokenNums (Tok.num v p :: t2 :: ts)).length - 1) :
    evaluate cs =
      (match reduceTokens (tokenNums (Tok.num v p :: t2 :: ts))
          (tokenOps (Tok.num v p :: t2 :: ts)) with
       | Except.error _ => EvalResult.err
       | Except.ok r => EvalResult.num (round10 r)) := by
  unfold evaluate
  rw [htk]
  simp [hshape]

/-- C4: evaluate gives no result exactly when tokenization fails, or
there are no tokens, or the first token is not a number, or the
operator count is not the number count minus one; with the spec's
examples, including the double-dot numeral that aborts tokenization. -/
theorem C4_noRes_characterization :
    (∀ cs : List Char, evaluate cs = EvalResult.noRes ↔
      (tokenize cs = none ∨ tokenize cs = some [] ∨
       (∃ o ts, tokenize cs = some (Tok.op o :: ts)) ∨
       (∃ ts, tokenize cs = some ts ∧ 2 ≤ ts.length ∧
         (tokenOps ts).length ≠ (tokenNums ts).length - 1))) ∧
    evaluate "".toList = EvalResult.noRes ∧
    evaluate "abc".toList = EvalResult.noRes ∧
    tokenize "..".toList = none ∧
    evaluate "..".toList = EvalResult.noRes := by
  refine ⟨?_, by with_unfolding_all rfl, by with_unfolding_all rfl,
    by with_unfolding_all rfl, by with_unfolding_all rfl⟩
  intro cs
  match htk : tokenize cs with
  | none =>
    unfold evaluate
    rw [htk]
    simp
  | some [] =>
    unfold evaluate
    rw [htk]
    simp
  | some (Tok.op o :: ts') =>
    unfold evaluate
    rw [htk]
    simp
  | some [Tok.num v p] =>
    rw [evaluate_single_eq cs v p htk]
    simp
  | some (Tok.num v p :: t2 :: ts'') =>
    by_cases hshape : (tokenOps (Tok.num v p :: t2 :: ts'')).length =
        (tokenNums (Tok.num v p :: t2 :: ts'')).length - 1
    · rw [evaluate_multi_eq cs v p t2 ts'' htk hshape]
      constructor
      · intro h
        exfalso
        revert h
        match reduceTokens (tokenNums (Tok.num v p :: t2 :: ts''))
            (tokenOps (Tok.num v p :: t2 :: ts'')) with
        | Except.error e => exact fun h => EvalResult.noConfusion h
        | Except.ok r => exact fun h => EvalResult.noConfusion h
      · intro hr
        rcases hr with h | h | ⟨o, ts, h⟩ | ⟨ts, h, hlen, hsh⟩
        · exact Option.noConfusion h
        · simp at h
        · simp at h
        · injection h with h
          subst h
          exact absurd hshape hsh
    · unfold evaluate
      rw [htk]
      constructor
      · intro _
        exact Or.inr (Or.inr (Or.inr ⟨Tok.num v p :: t2 :: ts'', rfl, by
          simp only [List.length_cons]; omega, hshape⟩))
      · intro _
        simp [hshape]

/-! ## Divisions by zero are the only error source of the reduction -/

/-- A combination step fails exactly on a division whose
percent-adjusted right operand is zero. -/
theorem applyOp_error_iff (a : Entry) (op : Op) (b : Entry) :
    applyOp a op b = Except.error () ↔ op = Op.div ∧ pv b = 0 := by
  match op with
  | Op.add => simp [applyOp]
  | Op.sub => simp [applyOp]
  | Op.mul => simp [applyOp]
  | Op.div =>
    by_cases h : pv b = 0
    · simp [applyOp, h]
    · simp [applyOp, h]

/-- A pass with no operator of its class left returns the state. -/
theorem runPass_none (prio : List Op) (nums : List Entry) (ops : List Op)
    (hf : findPrio prio ops = none) :
    runPass prio nums ops = Except.ok (nums, ops) := by
  cases ops with
  | nil => rfl
  | cons o rest =>
    unfold runPass
    simp only [List.length_cons, runPassF, hf]

/-- A failing combination aborts the pass with the error. -/
theorem runPass_error (prio : List Op) (nums : List Entry) (ops : List Op)
    (idx : ℕ) (hf : findPrio prio ops = some idx)
    (happ : applyOp (nums.getD idx defaultEntry) (ops.getD idx Op.add)
      (nums.getD (idx + 1) defaultEntry) = Except.error ()) :
    runPass prio nums ops = Except.error () := by
  match ops, hf, happ with
  | o :: rest, hf, happ =>
    unfold runPass
    simp only [List.length_cons, runPassF, hf, happ]

/-- The step relation is deterministic. -/
theorem passStep_det {prio : List Op} {s s1 s2 : List Entry × List Op}
    (h1 : PassStep prio s s1) (h2 : PassStep prio s s2) : s1 = s2 := by
  obtain ⟨i1, r1, hf1, ha1, he1⟩ := h1
  obtain ⟨i2, r2, hf2, ha2, he2⟩ := h2
  rw [hf1] at hf2
  injection hf2 with h
  subst h
  rw [ha1] at ha2
  injection ha2 with h
  subst h
  rw [he1, he2]

/-- A pass errors exactly when, along its deterministic step sequence, it
reaches a state whose leftmost class operator is a division by a
percent-adjusted zero. -/
theorem runPass_error_iff (prio : List Op) (n : ℕ) :
    ∀ (nums : List Entry) (ops : List Op), ops.length = n →
      (runPass prio nums ops = Except.error () ↔
        ∃ s, Relation.ReflTransGen (PassStep prio) (nums, ops) s ∧
          DivZeroNow prio s) := by
  induction n using Nat.strong_induction_on with
  | _ n ih =>
    intro nums ops hlen
    match hf : findPrio prio ops with
    | none =>
      rw [runPass_none prio nums ops hf]
      constructor
      · intro h
        exact Except.noConfusion h
      · rintro ⟨s, hstar, hdz⟩
        exfalso
        rcases Relation.ReflTransGen.cases_head hstar with heq | ⟨c, hstep, _⟩
        · subst heq
          obtain ⟨idx, hfi, _, _⟩ := hdz
          rw [hf] at hfi
          exact Option.noConfusion hfi
        · obtain ⟨idx, r, hfi, _, _⟩ := hstep
          rw [hf] at hfi
          exact Option.noConfusion hfi
    | some idx =>
      have hlt : idx < ops.length := findPrio_lt_length hf
      match happ : applyOp (nums.getD idx defaultEntry) (ops.getD idx Op.add)
          (nums.getD (idx + 1) defaultEntry) with
      | Except.error e =>
        rw [runPass_error prio nums ops idx hf happ]
        constructor
        · intro _
          refine ⟨(nums, ops), Relation.ReflTransGen.refl, ?_⟩
          have hc := (applyOp_error_iff _ _ _).mp happ
          exact ⟨idx, hf, hc.1, hc.2⟩
        · intro _
          rfl
      | Except.ok r =>
        rw [runPass_step prio nums ops idx r hf happ]
        have hlen2 : (ops.take idx ++ ops.drop (idx + 1)).length = n - 1 := by
          rw [length_splice_ops hlt]
          omega
        rw [ih (n - 1) (by omega)
          (nums.take idx ++ Entry.mk r false :: nums.drop (idx + 2))
          (ops.take idx ++ ops.drop (idx + 1)) hlen2]
        constructor
        · rintro ⟨s, hstar, hdz⟩
          exact ⟨s, Relation.ReflTransGen.head ⟨idx, r, hf, happ, rfl⟩ hstar, hdz⟩
        · rintro ⟨s, hstar, hdz⟩
          rcases Relation.ReflTransGen.cases_head hstar with heq | ⟨c, hstep, hstar2⟩
          · subst heq
            obtain ⟨idx2, hf2, hop2, hz2⟩ := hdz
            rw [hf] at hf2
            injection hf2 with h
            subst h
            have herr : applyOp (nums.getD idx defaultEntry)
                (ops.getD idx Op.add) (nums.getD (idx + 1) defaultEntry) =
                Except.error () :=
              (applyOp_error_iff _ _ _).mpr ⟨hop2, hz2⟩
            rw [happ] at herr
            exact Except.noConfusion herr
          · have hc : c = (nums.take idx ++ Entry.mk r false :: nums.drop (idx + 2),
                ops.take idx ++ ops.drop (idx + 1)) :=
              passStep_det hstep ⟨idx, r, hf, happ, rfl⟩
            exact ⟨s, hc ▸ hstar2, hdz⟩

/-- reduceTokens unfolding: a failing first pass aborts. -/
theorem reduceTokens_pass1_err (nums : List Entry) (ops : List Op) (e : Unit)
    (h1 : runPass mulDivP nums ops = Except.error e) :
    reduceTokens nums ops = Except.error e := by
  unfold reduceTokens
  rw [h1]

/-- reduceTokens unfolding: a successful first pass hands its state to
the additive pass. -/
theorem reduceTokens_pass1_ok (nums : List Entry) (ops : List Op)
    (nums1 : List Entry) (ops1 : List Op)
    (h1 : runPass mulDivP nums ops = Except.ok (nums1, ops1)) :
    reduceTokens nums ops =
      (match runPass addSubP nums1 ops1 with
       | Except.error e => Except.error e
       | Except.ok (nums2, _) => Except.ok (pv (nums2.headD defaultEntry))) := by
  unfold reduceTokens
  rw [h1]

/-- The two-pass reduction errors exactly when a division by zero occurs
during it. -/
theorem reduceTokens_error_iff (nums : List Entry) (ops : List Op) :
    reduceTokens nums ops = Except.error () ↔ DivZeroDuring nums ops := by
  rcases hcase : runPass mulDivP nums ops with e | ⟨nums1, ops1⟩
  · rw [reduceTokens_pass1_err nums ops e hcase]
    constructor
    · intro _
      exact Or.inl ((runPass_error_iff mulDivP ops.length nums ops rfl).mp hcase)
    · intro _
      rfl
  · rw [reduceTokens_pass1_ok nums ops nums1 ops1 hcase]
    rcases hcase2 : runPass addSubP nums1 ops1 with e2 | ⟨nums2, ops2⟩
    · constructor
      · intro _
        obtain ⟨s, hstar, hdz⟩ :=
          (runPass_error_iff addSubP ops1.length nums1 ops1 rfl).mp hcase2
        exact Or.inr ⟨(nums1, ops1), s, hcase, hstar, hdz⟩
      · intro _
        rfl
    · constructor
      · intro h
        exact Except.noConfusion h
      · intro hr
        exfalso
        rcases hr with hleft | ⟨mid, s, hmid, hstar, hdz⟩
        · have herr : runPass mulDivP nums ops = Except.error () :=
            (runPass_error_iff mulDivP ops.length nums ops rfl).mpr hleft
          rw [hcase] at herr
          exact Except.noConfusion herr
        · rw [hcase] at hmid
          injection hmid with hmid
          subst hmid
          have herr : runPass addSubP nums1 ops1 = Except.error () :=
            (runPass_error_iff addSubP ops1.length nums1 ops1 rfl).mpr
              ⟨s, hstar, hdz⟩
          rw [hcase2] at herr
          exact Except.noConfusion herr

/-- In the finite-regime rational model, whose arithmetic never leaves
the finite numbers, the error marker arises exactly from a division
whose percent-adjusted right operand is zero during the two-pass
reduction.  The overflow-aware evaluateJS refines this picture with the
non-finite outcomes of the real program, settled separately below. -/
theorem evaluate_error_iff_divzero_finite :
    (∀ cs : List Char, evaluate cs = EvalResult.err ↔
      ∃ v p t2 ts, tokenize cs = some (Tok.num v p :: t2 :: ts) ∧
        (tokenOps (Tok.num v p :: t2 :: ts)).length =
          (tokenNums (Tok.num v p :: t2 :: ts)).length - 1 ∧
        DivZeroDuring (tokenNums (Tok.num v p :: t2 :: ts))
          (tokenOps (Tok.num v p :: t2 :: ts))) ∧
    (∀ (a : Entry) (op : Op) (b : Entry),
      applyOp a op b = Except.error () ↔ op = Op.div ∧ pv b = 0) ∧
    evaluate "10/0".toList = EvalResult.err := by
  refine ⟨?_, applyOp_error_iff, by with_unfolding_all rfl⟩
  intro cs
  match htk : tokenize cs with
  | none =>
    have hev : evaluate cs = EvalResult.noRes := by
      unfold evaluate
      rw [htk]
    rw [hev]
    simp
  | some [] =>
    have hev : evaluate cs = EvalResult.noRes := by
      unfold evaluate
      rw [htk]
      rfl
    rw [hev]
    simp
  | some (Tok.op o :: ts') =>
    have hev : evaluate cs = EvalResult.noRes := by
      unfold evaluate
      rw [htk]
      rfl
    rw [hev]
    simp
  | some [Tok.num v p] =>
    rw [evaluate_single_eq cs v p htk]
    simp
  | some (Tok.num v p :: t2 :: ts'') =>
    by_cases hshape : (tokenOps (Tok.num v p :: t2 :: ts'')).length =
        (tokenNums (Tok.num v p :: t2 :: ts'')).length - 1
    · rw [evaluate_multi_eq cs v p t2 ts'' htk hshape]
      rcases hred : reduceTokens (tokenNums (Tok.num v p :: t2 :: ts''))
          (tokenOps (Tok.num v p :: t2 :: ts'')) with e | r
      · constructor
        · intro _
          exact ⟨v, p, t2, ts'', rfl, hshape,
            (reduceTokens_error_iff _ _).mp hred⟩
        · intro _
          rfl
      · constructor
        · intro h
          exact EvalResult.noConfusion h
        · rintro ⟨v', p', t2', ts', hts, hsh, hdz⟩
          exfalso
          injection hts with hts
          injection hts with h1 hts2
          injection hts2 with h2 h3
          injection h1 with hv hp
          subst hv
          subst hp
          subst h2
          subst h3
          have herr := (reduceTokens_error_iff _ _).mpr hdz
          rw [hred] at herr
          exact Except.noConfusion herr
    · have hev : evaluate cs = EvalResult.noRes := by
        unfold evaluate
        rw [htk]
        simp [hshape]
      rw [hev]
      constructor
      · intro h
        exact EvalResult.noConfusion h
      · rintro ⟨v', p', t2', ts', hts, hsh, _⟩
        exfalso
        injection hts with hts
        injection hts with h1 hts2
        injection hts2 with h2 h3
        injection h1 with hv hp
        subst hv
        subst hp
        subst h2
        subst h3
        exact hshape hsh

/-! ## Digit-free strings give no result -/

/-- parseFloat of a digit-free string is NaN. -/
theorem parseFloatCore_no_digit {s : List Char}
    (h : ∀ c ∈ s, c.isDigit = false) : parseFloatCore s = none := by
  match s with
  | [] => rfl
  | a :: t =>
    have ha : a.isDigit = false := h a (by simp)
    simp only [parseFloatCore]
    rw [List.takeWhile_cons_of_neg (by simp [ha]),
      List.dropWhile_cons_of_neg (by simp [ha])]
    split
    · rename_i r2 heq
      injection heq with ha' ht'
      subst ht'
      have hfp : t.takeWhile Char.isDigit = [] := by
        match t, h with
        | [], _ => rfl
        | b :: t', h =>
          have hb : b.isDigit = false := h b (by simp)
          rw [List.takeWhile_cons_of_neg (by simp [hb])]
      simp [hfp]
    · simp

/-- Tokenizing a digit-free string either fails or yields only operator
tokens. -/
theorem tokenize_no_digit {cs : List Char}
    (h : ∀ c ∈ cs, c.isDigit = false) :
    tokenize cs = none ∨ ∃ os : List Op, tokenize cs = some (os.map Tok.op) := by
  induction cs with
  | nil => exact Or.inr ⟨[], rfl⟩
  | cons c cs' ih =>
    have h' : ∀ x ∈ cs', x.isDigit = false := fun x hx => h x (by simp [hx])
    match hop : charOp? c with
    | some o =>
      rw [tokenize_cons_op c o cs' hop]
      rcases ih h' with hnone | ⟨os, hsome⟩
      · rw [hnone]
        exact Or.inl rfl
      · rw [hsome]
        exact Or.inr ⟨o :: os, rfl⟩
    | none =>
      by_cases hn : isNumChar c = true
      · have hrun : ∀ x ∈ (c :: cs').takeWhile isNumChar, x.isDigit = false := by
          intro x hx
          exact h x ((List.takeWhile_sublist isNumChar).subset hx)
        rw [tokenize_cons_num_fail c cs' hop hn (parseFloatCore_no_digit hrun)]
        exact Or.inl rfl
      · rw [tokenize_cons_skip c cs' hop (by simpa using hn)]
        exact ih h'

/-- Evaluating a digit-free string gives no result. -/
theorem evaluate_no_digit {cs : List Char}
    (h : ∀ c ∈ cs, c.isDigit = false) : evaluate cs = EvalResult.noRes := by
  rcases tokenize_no_digit h with hnone | ⟨os, hsome⟩
  · unfold evaluate
    rw [hnone]
  · match os, hsome with
    | [], hsome =>
      unfold evaluate
      rw [hsome]
      rfl
    | o :: os', hsome =>
      unfold evaluate
      rw [hsome]
      rfl

/-- C8: evaluateWithX is evaluate after the variable substitution and
stripping pipeline, except that an error-marker outcome is returned as no
result; the digit-presence guard of the source never changes the answer,
because a safe string without digits evaluates to no result anyway. -/
theorem C8_substitution_refinement :
    (∀ (expr : List Char) (x : ℚ),
      evaluateWithX expr x =
        (match evaluate (substituteX expr (numToString x).data) with
         | EvalResult.err => EvalResult.noRes
         | r => r)) ∧
    evaluateWithX "2x+1".toList 3 = EvalResult.num 7 ∧
    evaluateWithX "x2".toList 5 = EvalResult.num 10 ∧
    evaluateWithX "1/x".toList 0 = EvalResult.noRes := by
  refine ⟨?_, by with_unfolding_all rfl, by with_unfolding_all rfl,
    by with_unfolding_all rfl⟩
  intro expr x
  unfold evaluateWithX
  by_cases hemp : expr = []
  · subst hemp
    rfl
  · rw [if_neg hemp]
    by_cases hguard : substituteX expr (numToString x).data = [] ∨
        ¬ (substituteX expr (numToString x).data).any Char.isDigit
    · rw [if_pos hguard]
      have hev : evaluate (substituteX expr (numToString x).data) =
          EvalResult.noRes := by
        rcases hguard with hnil | hnod
        · rw [hnil]
          rfl
        · apply evaluate_no_digit
          intro c hc
          by_contra hcd
          simp only [Bool.not_eq_false] at hcd
          exact hnod (List.any_eq_true.mpr ⟨c, hc, hcd⟩)
      rw [hev]
    · rw [if_neg hguard]

/-! ## The overflow-aware reduction: supporting lemmas -/

/-- Fuel does not matter for the overflow-aware pass either. -/
theorem runPassJSF_congr (prio : List Op) {f1 f2 : ℕ} {nums : List EntryJS}
    {ops : List Op} (h1 : ops.length ≤ f1) (h2 : ops.length ≤ f2) :
    runPassJSF prio f1 nums ops = runPassJSF prio f2 nums ops := by
  induction f1 generalizing f2 nums ops with
  | zero =>
    have hops : ops = [] := List.length_eq_zero.mp (Nat.le_zero.mp h1)
    subst hops
    match f2 with
    | 0 => rfl
    | f2 + 1 =>
      simp only [runPassJSF, findPrio]
  | succ f1 ih =>
    match f2 with
    | 0 =>
      have hops : ops = [] := List.length_eq_zero.mp (Nat.le_zero.mp h2)
      subst hops
      simp only [runPassJSF, findPrio]
    | f2 + 1 =>
      simp only [runPassJSF]
      split
      · rfl
      · rename_i idx hf
        have hlt : idx < ops.length := findPrio_lt_length hf
        have hlen : (ops.take idx ++ ops.drop (idx + 1)).length = ops.length - 1 :=
          length_splice_ops hlt
        split
        · rfl
        · rename_i r heq
          exact @ih f2 (nums.take idx ++ EntryJS.mk r false :: nums.drop (idx + 2))
            (ops.take idx ++ ops.drop (idx + 1)) (by omega) (by omega)

/-- An overflow-aware pass with no operator of its class left returns
the state. -/
theorem runPassJS_none (prio : List Op) (nums : List EntryJS) (ops : List Op)
    (hf : findPrio prio ops = none) :
    runPassJS prio nums ops = Except.ok (nums, ops) := by
  cases ops with
  | nil => rfl
  | cons o rest =>
    unfold runPassJS
    simp only [List.length_cons, runPassJSF, hf]

/-- A failing combination aborts the overflow-aware pass. -/
theorem runPassJS_error (prio : List Op) (nums : List EntryJS) (ops : List Op)
    (idx : ℕ) (hf : findPrio prio ops = some idx)
    (happ : applyOpJS (nums.getD idx defaultEntryJS) (ops.getD idx Op.add)
      (nums.getD (idx + 1) defaultEntryJS) = Except.error ()) :
    runPassJS prio nums ops = Except.error () := by
  match ops, hf, happ with
  | o :: rest, hf, happ =>
    unfold runPassJS
    simp only [List.length_cons, runPassJSF, hf, happ]

/-- One successful combination unfolds the overflow-aware pass to the
spliced state. -/
theorem runPassJS_step (prio : List Op) (nums : List EntryJS) (ops : List Op)
    (idx : ℕ) (r : JNum) (hf : findPrio prio ops = some idx)
    (happ : applyOpJS (nums.getD idx defaultEntryJS) (ops.getD idx Op.add)
      (nums.getD (idx + 1) defaultEntryJS) = Except.ok r) :
    runPassJS prio nums ops =
      runPassJS prio (nums.take idx ++ EntryJS.mk r false :: nums.drop (idx + 2))
        (ops.take idx ++ ops.drop (idx + 1)) := by
  have hlt : idx < ops.length := findPrio_lt_length hf
  match ops, hf, happ, hlt with
  | o :: ops', hf, happ, hlt =>
    have hsplice : ((o :: ops').take idx ++ (o :: ops').drop (idx + 1)).length =
        ops'.length := by
      have := length_splice_ops hlt
      simpa using this
    show runPassJSF prio (o :: ops').length nums (o :: ops') = _
    simp only [List.length_cons, runPassJSF, hf, happ]
    unfold runPassJS
    rw [hsplice]

/-- An overflow-aware combination step fails exactly on a division whose
percent-adjusted right operand is the number zero. -/
theorem applyOpJS_error_iff (a : EntryJS) (op : Op) (b : EntryJS) :
    applyOpJS a op b = Except.error () ↔ op = Op.div ∧ pvJS b = JNum.fin 0 := by
  match op with
  | Op.add => simp [applyOpJS]
  | Op.sub => simp [applyOpJS]
  | Op.mul => simp [applyOpJS]
  | Op.div =>
    by_cases h : pvJS b = JNum.fin 0
    · simp [applyOpJS, h]
    · simp [applyOpJS, h]

/-- The overflow-aware step relation is deterministic. -/
theorem passStepJS_det {prio : List Op} {s s1 s2 : List EntryJS × List Op}
    (h1 : PassStepJS prio s s1) (h2 : PassStepJS prio s s2) : s1 = s2 := by
  obtain ⟨i1, r1, hf1, ha1, he1⟩ := h1
  obtain ⟨i2, r2, hf2, ha2, he2⟩ := h2
  rw [hf1] at hf2
  injection hf2 with h
  subst h
  rw [ha1] at ha2
  injection ha2 with h
  subst h
  rw [he1, he2]

/-- The overflow-aware pass errors exactly when its step sequence
reaches a state about to divide by zero. -/
theorem runPassJS_error_iff (prio : List Op) (n : ℕ) :
    ∀ (nums : List EntryJS) (ops : List Op), ops.length = n →
      (runPassJS prio nums ops = Except.error () ↔
        ∃ s, Relation.ReflTransGen (PassStepJS prio) (nums, ops) s ∧
          DivZeroNowJS prio s) := by
  induction n using Nat.strong_induction_on with
  | _ n ih =>
    intro nums ops hlen
    match hf : findPrio prio ops with
    | none =>
      rw [runPassJS_none prio nums ops hf]
      constructor
      · intro h
        exact Except.noConfusion h
      · rintro ⟨s, hstar, hdz⟩
        exfalso
        rcases Relation.ReflTransGen.cases_head hstar with heq | ⟨c, hstep, _⟩
        · subst heq
          obtain ⟨idx, hfi, _, _⟩ := hdz
          rw [hf] at hfi
          exact Option.noConfusion hfi
        · obtain ⟨idx, r, hfi, _, _⟩ := hstep
          rw [hf] at hfi
          exact Option.noConfusion hfi
    | some idx =>
      have hlt : idx < ops.length := findPrio_lt_length hf
      match happ : applyOpJS (nums.getD idx defaultEntryJS) (ops.getD idx Op.add)
          (nums.getD (idx + 1) defaultEntryJS) with
      | Except.error e =>
        rw [runPassJS_error prio nums ops idx hf happ]
        constructor
        · intro _
          refine ⟨(nums, ops), Relation.ReflTransGen.refl, ?_⟩
          have hc := (applyOpJS_error_iff _ _ _).mp happ
          exact ⟨idx, hf, hc.1, hc.2⟩
        · intro _
          rfl
      | Except.ok r =>
        rw [runPassJS_step prio nums ops idx r hf happ]
        have hlen2 : (ops.take idx ++ ops.drop (idx + 1)).length = n - 1 := by
          rw [length_splice_ops hlt]
          omega
        rw [ih (n - 1) (by omega)
          (nums.take idx ++ EntryJS.mk r false :: nums.drop (idx + 2))
          (ops.take idx ++ ops.drop (idx + 1)) hlen2]
        constructor
        · rintro ⟨s, hstar, hdz⟩
          exact ⟨s, Relation.ReflTransGen.head ⟨idx, r, hf, happ, rfl⟩ hstar, hdz⟩
        · rintro ⟨s, hstar, hdz⟩
          rcases Relation.ReflTransGen.cases_head hstar with heq | ⟨c, hstep, hstar2⟩
          · subst heq
            obtain ⟨idx2, hf2, hop2, hz2⟩ := hdz
            rw [hf] at hf2
            injection hf2 with h
            subst h
            have herr : applyOpJS (nums.getD idx defaultEntryJS)
                (ops.getD idx Op.add) (nums.getD (idx + 1) defaultEntryJS) =
                Except.error () :=
              (applyOpJS_error_iff _ _ _).mpr ⟨hop2, hz2⟩
            rw [happ] at herr
            exact Except.noConfusion herr
          · have hc : c = (nums.take idx ++ EntryJS.mk r false :: nums.drop (idx + 2),
                ops.take idx ++ ops.drop (idx + 1)) :=
              passStepJS_det hstep ⟨idx, r, hf, happ, rfl⟩
            exact ⟨s, hc ▸ hstar2, hdz⟩

/-- Overflow-aware reduceTokens unfolding: a failing first pass aborts. -/
theorem reduceTokensJS_pass1_err (nums : List EntryJS) (ops : List Op)
    (e : Unit) (h1 : runPassJS mulDivP nums ops = Except.error e) :
    reduceTokensJS nums ops = Except.error e := by
  unfold reduceTokensJS
  rw [h1]

/-- Overflow-aware reduceTokens unfolding: a successful first pass hands
its state to the additive pass. -/
theorem reduceTokensJS_pass1_ok (nums : List EntryJS) (ops : List Op)
    (nums1 : List EntryJS) (ops1 : List Op)
    (h1 : runPassJS mulDivP nums ops = Except.ok (nums1, ops1)) :
    reduceTokensJS nums ops =
      (match runPassJS addSubP nums1 ops1 with
       | Except.error e => Except.error e
       | Except.ok (nums2, _) => Except.ok (pvJS (nums2.headD defaultEntryJS))) := by
  unfold reduceTokensJS
  rw [h1]

/-- The overflow-aware two-pass reduction errors exactly when a division
by zero occurs during it. -/
theorem reduceTokensJS_error_iff (nums : List EntryJS) (ops : List Op) :
    reduceTokensJS nums ops = Except.error () ↔ DivZeroDuringJS nums ops := by
  rcases hcase : runPassJS mulDivP nums ops with e | ⟨nums1, ops1⟩
  · rw [reduceTokensJS_pass1_err nums ops e hcase]
    constructor
    · intro _
      exact Or.inl ((runPassJS_error_iff mulDivP ops.length nums ops rfl).mp hcase)
    · intro _
      rfl
  · rw [reduceTokensJS_pass1_ok nums ops nums1 ops1 hcase]
    rcases hcase2 : runPassJS addSubP nums1 ops1 with e2 | ⟨nums2, ops2⟩
    · constructor
      · intro _
        obtain ⟨s, hstar, hdz⟩ :=
          (runPassJS_error_iff addSubP ops1.length nums1 ops1 rfl).mp hcase2
        exact Or.inr ⟨(nums1, ops1), s, hcase, hstar, hdz⟩
      · intro _
        rfl
    · constructor
      · intro h
        exact Except.noConfusion h
      · intro hr
        exfalso
        rcases hr with hleft | ⟨mid, s, hmid, hstar, hdz⟩
        · have herr : runPassJS mulDivP nums ops = Except.error () :=
            (runPassJS_error_iff mulDivP ops.length nums ops rfl).mpr hleft
          rw [hcase] at herr
          exact Except.noConfusion herr
        · rw [hcase] at hmid
          injection hmid with hmid
          subst hmid
          have herr : runPassJS addSubP nums1 ops1 = Except.error () :=
            (runPassJS_error_iff addSubP ops1.length nums1 ops1 rfl).mpr
              ⟨s, hstar, hdz⟩
          rw [hcase2] at herr
          exact Except.noConfusion herr

/-- Overflow-aware evaluate on a single number token: the fast path,
with no finiteness check and no rounding. -/
theorem evaluateJS_single_eq (cs : List Char) (v : JNum) (p : Bool)
    (htk : tokenizeJS cs = some [TokJS.num v p]) :
    evaluateJS cs =
      EvalResultJS.num (if p then jsnDiv v (JNum.fin 100) else v) := by
  unfold evaluateJS
  rw [htk]
  rfl

/-- Overflow-aware evaluate on a well-shaped multi-token stream reduces
the two passes, checks the pre-rounding result for the infinities and
NaN, and rounds otherwise. -/
theorem evaluateJS_multi_eq (cs : List Char) (v : JNum) (p : Bool) (t2 : TokJS)
    (ts : List TokJS)
    (htk : tokenizeJS cs = some (TokJS.num v p :: t2 :: ts))
    (hshape : (tokenOpsJS (TokJS.num v p :: t2 :: ts)).length =
      (tokenNumsJS (TokJS.num v p :: t2 :: ts)).length - 1) :
    evaluateJS cs =
      (match reduceTokensJS (tokenNumsJS (TokJS.num v p :: t2 :: ts))
          (tokenOpsJS (TokJS.num v p :: t2 :: ts)) with
       | Except.error _ => EvalResultJS.err
       | Except.ok result =>
         match result with
         | JNum.inf _ => EvalResultJS.err
         | JNum.nan => EvalResultJS.err
         | JNum.fin q => EvalResultJS.num (round10JS q)) := by
  unfold evaluateJS
  rw [htk]
  simp [hshape]

set_option maxRecDepth 8000 in
/-- C3 as stated is false on the overflow-aware model of the program: a
single numeric literal of three hundred ten digits parses to Infinity,
passes the Number.isNaN abort, and the single-token fast path returns it
as a Number, not as the error marker; and the same literal times one
yields the error marker from the final non-finite check although the
expression contains no division at all. -/
theorem C3_counterexample :
    evaluateJS ('1' :: List.replicate 309 '0') =
      EvalResultJS.num (JNum.inf true) ∧
    EvalResultJS.num (JNum.inf true) ≠ EvalResultJS.err ∧
    evaluateJS (('1' :: List.replicate 309 '0') ++ "*1".toList) =
      EvalResultJS.err ∧
    '/' ∉ ('1' :: List.replicate 309 '0') ++ "*1".toList := by
  refine ⟨?_, ?_, ?_, ?_⟩
  · with_unfolding_all rfl
  · exact fun h => EvalResultJS.noConfusion h
  · with_unfolding_all rfl
  · decide

set_option maxRecDepth 8000 in
/-- C3 amended: on the well-shaped multi-token path, evaluate returns
the error marker exactly when a division whose percent-adjusted right
operand is the number zero occurs during the two-pass reduction
(short-circuiting the rest), or the reduction's final value before
rounding is one of the infinities or NaN; the single-token fast path
returns the parsed value with no finiteness check, so evaluate can
return a non-finite value as a Number; a combination step can fail in no
other way than the zero division; and ten over zero errors. -/
theorem C3_amended_error_iff :
    (∀ cs : List Char, evaluateJS cs = EvalResultJS.err ↔
      ∃ v p t2 ts, tokenizeJS cs = some (TokJS.num v p :: t2 :: ts) ∧
        (tokenOpsJS (TokJS.num v p :: t2 :: ts)).length =
          (tokenNumsJS (TokJS.num v p :: t2 :: ts)).length - 1 ∧
        (DivZeroDuringJS (tokenNumsJS (TokJS.num v p :: t2 :: ts))
            (tokenOpsJS (TokJS.num v p :: t2 :: ts)) ∨
         (∃ r, reduceTokensJS (tokenNumsJS (TokJS.num v p :: t2 :: ts))
              (tokenOpsJS (TokJS.num v p :: t2 :: ts)) = Except.ok r ∧
            (r = JNum.nan ∨ ∃ b, r = JNum.inf b)))) ∧
    (∀ (cs : List Char) (v : JNum) (p : Bool),
      tokenizeJS cs = some [TokJS.num v p] →
      evaluateJS cs =
        EvalResultJS.num (if p then jsnDiv v (JNum.fin 100) else v)) ∧
    (∀ (a : EntryJS) (op : Op) (b : EntryJS),
      applyOpJS a op b = Except.error () ↔ op = Op.div ∧ pvJS b = JNum.fin 0) ∧
    evaluateJS "10/0".toList = EvalResultJS.err := by
  refine ⟨?_, evaluateJS_single_eq, applyOpJS_error_iff, ?_⟩
  · intro cs
    match htk : tokenizeJS cs with
    | none =>
      have hev : evaluateJS cs = EvalResultJS.noRes := by
        unfold evaluateJS
        rw [htk]
      rw [hev]
      simp
    | some [] =>
      have hev : evaluateJS cs = EvalResultJS.noRes := by
        unfold evaluateJS
        rw [htk]
        rfl
      rw [hev]
      simp
    | some (TokJS.op o :: ts') =>
      have hev : evaluateJS cs = EvalResultJS.noRes := by
        unfold evaluateJS
        rw [htk]
        rfl
      rw [hev]
      simp
    | some [TokJS.num v p] =>
      rw [evaluateJS_single_eq cs v p htk]
      simp
    | some (TokJS.num v p :: t2 :: ts'') =>
      by_cases hshape : (tokenOpsJS (TokJS.num v p :: t2 :: ts'')).length =
          (tokenNumsJS (TokJS.num v p :: t2 :: ts'')).length - 1
      · rw [evaluateJS_multi_eq cs v p t2 ts'' htk hshape]
        rcases hred : reduceTokensJS (tokenNumsJS (TokJS.num v p :: t2 :: ts''))
            (tokenOpsJS (TokJS.num v p :: t2 :: ts'')) with e | r
        · constructor
          · intro _
            exact ⟨v, p, t2, ts'', rfl, hshape,
              Or.inl ((reduceTokensJS_error_iff _ _).mp hred)⟩
          · intro _
            rfl
        · cases r with
          | fin q =>
            constructor
            · intro h
              exact EvalResultJS.noConfusion h
            · rintro ⟨v', p', t2', ts', hts, hsh, hdz⟩
              exfalso
              injection hts with hts
              injection hts with h1 hts2
              injection hts2 with h2 h3
              injection h1 with hv hp
              subst hv
              subst hp
              subst h2
              subst h3
              rcases hdz with hdz | ⟨r', hr', hnf⟩
              · have herr := (reduceTokensJS_error_iff _ _).mpr hdz
                rw [hred] at herr
                exact Except.noConfusion herr
              · rw [hred] at hr'
                injection hr' with hr'
                subst hr'
                rcases hnf with hnan | ⟨b, hb⟩
                · exact JNum.noConfusion hnan
                · exact JNum.noConfusion hb
          | nan =>
            constructor
            · intro _
              exact ⟨v, p, t2, ts'', rfl, hshape,
                Or.inr ⟨JNum.nan, hred, Or.inl rfl⟩⟩
            · intro _
              rfl
          | inf b =>
            constructor
            · intro _
              exact ⟨v, p, t2, ts'', rfl, hshape,
                Or.inr ⟨JNum.inf b, hred, Or.inr ⟨b, rfl⟩⟩⟩
            · intro _
              rfl
      · have hev : evaluateJS cs = EvalResultJS.noRes := by
          unfold evaluateJS
          rw [htk]
          simp [hshape]
        rw [hev]
        constructor
        · intro h
          exact EvalResultJS.noConfusion h
        · rintro ⟨v', p', t2', ts', hts, hsh, _⟩
          exfalso
          injection hts with hts
          injection hts with h1 hts2
          injection hts2 with h2 h3
          injection h1 with hv hp
          subst hv
          subst hp
          subst h2
          subst h3
          exact hshape hsh
  · with_unfolding_all rfl

set_option maxRecDepth 8000 in
/-- Witness for C3 amended at a concrete single-token input. -/
theorem C3_witness :
    evaluateJS "5".toList =
      EvalResultJS.num
        (if false then jsnDiv (JNum.fin 5) (JNum.fin 100) else JNum.fin 5) :=
  C3_amended_error_iff.2.1 "5".toList (JNum.fin 5) false
    (by with_unfolding_all rfl)

end ScholarHub
